import Mathlib

/-! Verification of sp_corrector: clamping a stack pointer to the stack region of a thread.

A shallow embedding of `src/sp_corrector.c` and the properties of its
bounds check.

Addresses and sizes are natural numbers; a value of a C pointer or
`size_t` type is a natural number below `2 ^ bits`, where `bits` is the
pointer width of the host.  Arithmetic that the C code performs on such
values is reduced modulo `2 ^ bits` explicitly.
-/

namespace SpCorrector

/-- The four branches of the `#if` chain in `sp_corrector`
(lines 19, 23, 27, 33).  A target matched by none of them does
not compile (`#error`, line 43). -/
inductive Platform where
  | macOS
  | iOS
  | win64
  | linux
deriving DecidableEq

/-- The operating-system calls `sp_corrector` makes, as functions of their
arguments.  A call with out-parameters returns what the out-parameters hold
after the call.

* `pthread_getattr_np tid` is the return code of the call on line 36; the
  attribute object it fills is identified with the thread it describes.
* `pthread_attr_getstack tid` is the call on line 37 on that attribute
  object: return code, then the contents of `stack_addr` and `stack_size`
  after the call (on entry they hold `NULL` and `0`).
* `GetCurrentThreadStackLimits` is `(stack_low, stack_high)`; the call takes
  no thread argument.
* `pthread_attr_destroy` has no effect on the variables of the function and
  is left out. -/
structure Host where
  bits : Nat
  pthread_get_stacksize_np : Nat → Nat
  pthread_get_stackaddr_np : Nat → Nat
  GetCurrentThreadStackLimits : Nat × Nat
  pthread_getattr_np : Nat → Int
  pthread_attr_getstack : Nat → Int × Nat × Nat

/-- How the translation unit is built: whether `NDEBUG` is defined, and the
address at which the string literal on line 47 is stored.  A string literal
designates an array object, so its address is not the null pointer. -/
structure Build where
  ndebug : Bool
  msg : Nat
  msg_nonnull : msg ≠ 0

/-- What a caller of `sp_corrector` can see afterwards: the function returned
and `*sp_ptr` holds `sp`, or the process was aborted by a failed assertion.
The function has return type `void`: there is no result value. -/
inductive Outcome where
  | returned (sp : Nat)
  | aborted
deriving DecidableEq

/-- Unsigned subtraction at width `w`, as the C expression `a - b` on operands
of an unsigned type of `w` bits. -/
def subw (w a b : Nat) : Nat :=
  (a + (2 ^ w - b % 2 ^ w)) % 2 ^ w

/-- Pointer-plus-offset at width `w`, as `stack_addr + stack_size` on line 52. -/
def addw (w a b : Nat) : Nat :=
  (a + b) % 2 ^ w

/-- Lines 16-44 of `sp_corrector`: the values of `(stack_addr, stack_size)`
when control reaches line 46.  Both variables are initialised on lines 16-17
and overwritten by the branch compiled for the platform. -/
def query (plat : Platform) (h : Host) (tid : Nat) : Nat × Nat :=
  let stack_size := 0
  let stack_addr := 0
  match plat with
  | Platform.macOS => (h.pthread_get_stackaddr_np tid, h.pthread_get_stacksize_np tid)
  | Platform.iOS => (h.pthread_get_stackaddr_np tid, h.pthread_get_stacksize_np tid)
  | Platform.win64 =>
      let stack_low := h.GetCurrentThreadStackLimits.1
      let stack_high := h.GetCurrentThreadStackLimits.2
      (stack_low, subw h.bits stack_high stack_low)
  | Platform.linux =>
      if h.pthread_getattr_np tid = 0 then
        let r := h.pthread_attr_getstack tid
        if r.1 ≠ 0 then (0, r.2.2) else (r.2.1, r.2.2)
      else (stack_addr, stack_size)

/-- The macro `assert(e)` for a scalar `e`: with `NDEBUG` it expands to
`((void)0)`; without, it aborts when `e` compares equal to zero.  The value is
`true` when execution continues. -/
def assert (ndebug : Bool) (e : Nat) : Bool :=
  if ndebug then true else decide (e ≠ 0)

/-- Lines 46-54 of `sp_corrector`, run with `*sp_ptr = sp` on entry. -/
def check (bits : Nat) (b : Build) (stack_addr stack_size : Nat) (sp : Nat) : Outcome :=
  if stack_addr = 0 then
    if assert b.ndebug b.msg then Outcome.returned sp else Outcome.aborted
  else if sp ≤ stack_addr ∨ sp ≥ addw bits stack_addr stack_size then
    Outcome.returned stack_addr
  else
    Outcome.returned sp

/-- The function `sp_corrector(void **sp_ptr, void *tid)`; `sp` is the
content of `*sp_ptr` on entry. -/
def sp_corrector (plat : Platform) (h : Host) (b : Build) (sp : Nat) (tid : Nat) : Outcome :=
  let r := query plat h tid
  check h.bits b r.1 r.2 sp

/-- A Linux host of 64 bits on which both calls succeed and report the
region `(base, size)` for every thread. -/
def linuxHost (base size : Nat) : Host :=
  { bits := 64
    pthread_get_stacksize_np := fun _ => 0
    pthread_get_stackaddr_np := fun _ => 0
    GetCurrentThreadStackLimits := (0, 0)
    pthread_getattr_np := fun _ => 0
    pthread_attr_getstack := fun _ => (0, base, size) }

/-- A Linux host of 64 bits on which `pthread_getattr_np` fails (`rc ≠ 0`). -/
def linuxFailHost (rc : Int) : Host :=
  { bits := 64
    pthread_get_stacksize_np := fun _ => 0
    pthread_get_stackaddr_np := fun _ => 0
    GetCurrentThreadStackLimits := (0, 0)
    pthread_getattr_np := fun _ => rc
    pthread_attr_getstack := fun _ => (0, 0, 0) }

/-- A Windows host of 64 bits reporting the limits `(low, high)`. -/
def winHost (low high : Nat) : Host :=
  { bits := 64
    pthread_get_stacksize_np := fun _ => 0
    pthread_get_stackaddr_np := fun _ => 0
    GetCurrentThreadStackLimits := (low, high)
    pthread_getattr_np := fun _ => 0
    pthread_attr_getstack := fun _ => (0, 0, 0) }

/-- A build with assertions enabled. -/
def debugBuild : Build := ⟨false, 0x402010, by decide⟩

/-- A build with `NDEBUG` defined. -/
def releaseBuild : Build := ⟨true, 0x402010, by decide⟩

/-! ## The conservative stack scanner

The source file holds the sanitizer only.  The definitions of this section
follow sections 3, 4.2, 4.4 and 8 of the specification. -/

/-- Modelled from the spec: the heap `AddressRange { low, high }` of section 6,
absent from the source; the scenario of section 8 writes it as the closed
interval `[0x9000, 0xA000]`. -/
structure AddressRange where
  low : Nat
  high : Nat

/-- Modelled from the spec: "falls within `heap_range`" (section 4.2), absent
from the source, as membership in the closed interval. -/
def AddressRange.contains (H : AddressRange) (v : Nat) : Bool :=
  decide (H.low ≤ v ∧ v ≤ H.high)

/-- Modelled from the spec: the `RootSet` of sections 3 and 4.4, absent from
the source: "a set of CandidateRoot values". -/
structure RootSet where
  roots : List Nat
deriving DecidableEq

/-- Modelled from the spec: `insert(addr)` of section 4.4, absent from the
source; "duplicate insertion is harmless (idempotent)". -/
def RootSet.insert (s : RootSet) (v : Nat) : RootSet :=
  if v ∈ s.roots then s else ⟨s.roots ++ [v]⟩

/-- Modelled from the spec: the failure kinds of `scan` (section 4.2, section 7),
absent from the source. -/
inductive ScanError where
  | InvalidRange
deriving DecidableEq

/-- Modelled from the spec: the first pointer-width-aligned address at or above
`a`, absent from the source as is the scanner it serves.  Section 8 makes the
result of a scan with `start == top` depend on alignment ("an empty or
single-word result depending on alignment"), so the units read are the aligned
ones. -/
def alignUp (W a : Nat) : Nat :=
  (a + (W - 1)) / W * W

/-- Modelled from the spec: the loop of `scan` (section 4.2), absent from the
source: "reads memory in units of the platform's native pointer width,
advancing from `start` to `top`.  Each unit whose value falls within
`heap_range` is inserted into `sink`".  `mem a` is the pointer-width value
stored at address `a`; `W` is the pointer width in bytes; a unit is read while
its address is in `[start, top]` ("never reads past `top`", section 8). -/
def scanLoop (W : Nat) (mem : Nat → Nat) (H : AddressRange) (top : Nat) :
    Nat → Nat → RootSet → RootSet
  | 0, _, sink => sink
  | fuel + 1, cursor, sink =>
      if cursor ≤ top then
        scanLoop W mem H top fuel (cursor + W)
          (if H.contains (mem cursor) then sink.insert (mem cursor) else sink)
      else sink

/-- Modelled from the spec: `scan(start, top, heap_range, sink) -> ScanResult`
of section 4.2, absent from the source: "if `start > top` ... fails with
`InvalidRange`"; otherwise the loop runs from the first aligned address at or
above `start`.  The loop is given `top - start + 1` iterations, which suffice
when `W > 0` since every iteration advances the cursor. -/
def scan (W : Nat) (mem : Nat → Nat) (start top : Nat) (H : AddressRange) (sink : RootSet) :
    Except ScanError RootSet :=
  if start > top then Except.error ScanError.InvalidRange
  else Except.ok (scanLoop W mem H top (top - start + 1) (alignUp W start) sink)

/-- The memory of the scenario of section 8: the value `0x9500` at offset
`0x10` of the range starting at `0x1000`, a value outside the heap elsewhere. -/
def scenarioMem (a : Nat) : Nat :=
  if a = 0x1010 then 0x9500 else 0x41414141

/-! ## The bounds check -/

theorem assert_msg (b : Build) : assert b.ndebug b.msg = true := by
  unfold assert
  cases b.ndebug <;> simp [b.msg_nonnull]

theorem check_null (bits : Nat) (b : Build) (stack_size sp : Nat) :
    check bits b 0 stack_size sp = Outcome.returned sp := by
  simp [check, assert_msg]

theorem check_nonnull (bits : Nat) (b : Build) (stack_addr stack_size sp : Nat)
    (h0 : stack_addr ≠ 0) :
    check bits b stack_addr stack_size sp =
      Outcome.returned
        (if stack_addr < sp ∧ sp < addw bits stack_addr stack_size then sp else stack_addr) := by
  unfold check
  rw [if_neg h0]
  by_cases hc : sp ≤ stack_addr ∨ sp ≥ addw bits stack_addr stack_size
  · rw [if_pos hc, if_neg (by omega)]
  · rw [if_neg hc, if_pos (by omega)]

theorem check_base (bits : Nat) (b : Build) (stack_addr stack_size : Nat) :
    check bits b stack_addr stack_size stack_addr = Outcome.returned stack_addr := by
  unfold check
  by_cases h0 : stack_addr = 0
  · rw [if_pos h0, assert_msg]; rfl
  · rw [if_neg h0, if_pos (Or.inl (Nat.le_refl _))]

theorem addw_of_lt (w a b : Nat) (h : a + b < 2 ^ w) : addw w a b = a + b := by
  unfold addw
  exact Nat.mod_eq_of_lt h

theorem addw_le (w a b : Nat) : addw w a b ≤ a + b := by
  unfold addw
  exact Nat.mod_le _ _

theorem addw_subw (w low high : Nat) (hl : low < 2 ^ w) (hh : high < 2 ^ w) :
    addw w low (subw w high low) = high := by
  unfold addw subw
  rw [Nat.mod_eq_of_lt hl, Nat.add_mod_mod]
  have e : low + (high + (2 ^ w - low)) = high + 2 ^ w := by omega
  rw [e, Nat.add_mod_right, Nat.mod_eq_of_lt hh]

theorem sp_corrector_null (plat : Platform) (h : Host) (b : Build) (sp tid : Nat)
    (hnull : (query plat h tid).1 = 0) :
    sp_corrector plat h b sp tid = Outcome.returned sp := by
  unfold sp_corrector
  simp only []
  rw [hnull]
  exact check_null _ _ _ _

theorem sp_corrector_eq (plat : Platform) (h : Host) (b : Build) (sp tid : Nat)
    (h0 : (query plat h tid).1 ≠ 0) :
    sp_corrector plat h b sp tid =
      Outcome.returned
        (if (query plat h tid).1 < sp ∧
            sp < addw h.bits (query plat h tid).1 (query plat h tid).2
          then sp else (query plat h tid).1) := by
  unfold sp_corrector
  exact check_nonnull _ _ _ _ _ h0

theorem sp_corrector_nonnull (plat : Platform) (h : Host) (b : Build) (sp tid base size : Nat)
    (hq : query plat h tid = (base, size)) (h0 : base ≠ 0) :
    sp_corrector plat h b sp tid =
      Outcome.returned (if base < sp ∧ sp < addw h.bits base size then sp else base) := by
  have e := sp_corrector_eq plat h b sp tid (by rw [hq]; exact h0)
  rw [hq] at e
  exact e

theorem query_linux_error (h : Host) (tid : Nat)
    (herr : h.pthread_getattr_np tid ≠ 0 ∨
      (h.pthread_getattr_np tid = 0 ∧ (h.pthread_attr_getstack tid).1 ≠ 0)) :
    (query Platform.linux h tid).1 = 0 := by
  unfold query
  rcases herr with h1 | ⟨h1, h2⟩
  · simp [h1]
  · simp [h1, h2]

/-! ## Claims -/

/-- C1, as stated, fails: on a 64-bit host reporting the region
`base = 0xFFFFFFFFFFFFF000`, `size = 0x1000`, whose one-past-top address
`base + size = 2 ^ 64` wraps to `0` on line 52, the pointer
`p = 0xFFFFFFFFFFFFF800` satisfies `size > 0` and `base ≤ p < base + size`, yet
`sp_corrector` replaces it by `base`. -/
theorem identity_fails_when_top_wraps :
    query Platform.linux (linuxHost 0xFFFFFFFFFFFFF000 0x1000) 7
        = (0xFFFFFFFFFFFFF000, 0x1000)
      ∧ (0 : Nat) < 0x1000
      ∧ (0xFFFFFFFFFFFFF000 : Nat) ≤ 0xFFFFFFFFFFFFF800
      ∧ (0xFFFFFFFFFFFFF800 : Nat) < 0xFFFFFFFFFFFFF000 + 0x1000
      ∧ (0xFFFFFFFFFFFFF000 : Nat) < 2 ^ 64 ∧ (0x1000 : Nat) < 2 ^ 64
      ∧ (0xFFFFFFFFFFFFF800 : Nat) < 2 ^ 64
      ∧ sp_corrector Platform.linux (linuxHost 0xFFFFFFFFFFFFF000 0x1000) debugBuild
          0xFFFFFFFFFFFFF800 7 = Outcome.returned 0xFFFFFFFFFFFFF000
      ∧ sp_corrector Platform.linux (linuxHost 0xFFFFFFFFFFFFF000 0x1000) debugBuild
          0xFFFFFFFFFFFFF800 7 ≠ Outcome.returned 0xFFFFFFFFFFFFF800 := by
  decide

/-- C1, amended: on every platform branch, for every reported region
`(base, size)` with `size > 0` whose end `base + size` does not overflow the
pointer width, and every `p` with `base ≤ p < base + size`, `sp_corrector`
returns with `*sp_ptr` equal to `p`. -/
theorem identity_in_range (plat : Platform) (h : Host) (b : Build) (tid base size p : Nat)
    (hq : query plat h tid = (base, size)) (_hs : 0 < size)
    (hw : base + size < 2 ^ h.bits) (hlo : base ≤ p) (hhi : p < base + size) :
    sp_corrector plat h b p tid = Outcome.returned p := by
  by_cases h0 : base = 0
  · exact sp_corrector_null plat h b p tid (by rw [hq]; exact h0)
  · rw [sp_corrector_nonnull plat h b p tid base size hq h0, addw_of_lt _ _ _ hw]
    by_cases hc : base < p ∧ p < base + size
    · rw [if_pos hc]
    · rw [if_neg hc]
      have : p = base := by omega
      rw [this]

/-- Witness of C1 (amended): region `{base = 0x1000, size = 0x1000}` and
`p = 0x1800` give `0x1800`. -/
theorem identity_in_range_witness :
    sp_corrector Platform.linux (linuxHost 0x1000 0x1000) debugBuild 0x1800 7
      = Outcome.returned 0x1800 :=
  identity_in_range Platform.linux (linuxHost 0x1000 0x1000) debugBuild 7 0x1000 0x1000 0x1800
    (by decide) (by decide) (by decide) (by decide) (by decide)

/-- C2, as stated, fails: when the reported region has a null base
(`base = 0`, `size = 0x1000`), the pointer `p = 0x2000` satisfies
`p ≥ base + size`, yet `sp_corrector` takes the early return on line 48 and
leaves `*sp_ptr = 0x2000`, not `base`. -/
theorem clamp_fails_on_null_base :
    query Platform.linux (linuxHost 0 0x1000) 7 = (0, 0x1000)
      ∧ ((0x2000 : Nat) < 0 ∨ (0x2000 : Nat) ≥ 0 + 0x1000)
      ∧ sp_corrector Platform.linux (linuxHost 0 0x1000) debugBuild 0x2000 7
          = Outcome.returned 0x2000
      ∧ sp_corrector Platform.linux (linuxHost 0 0x1000) debugBuild 0x2000 7
          ≠ Outcome.returned 0 := by
  decide

/-- C2, amended: on every platform branch, for every reported region
`(base, size)` with a non-null base and every `p` with `p < base` or
`p ≥ base + size` (the one-past-top pointer `p = base + size` included),
`sp_corrector` returns with `*sp_ptr` equal to `base`. -/
theorem clamp_out_of_range (plat : Platform) (h : Host) (b : Build) (tid base size p : Nat)
    (hq : query plat h tid = (base, size)) (h0 : base ≠ 0)
    (hout : p < base ∨ p ≥ base + size) :
    sp_corrector plat h b p tid = Outcome.returned base := by
  rw [sp_corrector_nonnull plat h b p tid base size hq h0]
  have hle := addw_le h.bits base size
  rw [if_neg (by omega)]

/-- Witness of C2 (amended): region `{base = 0x1000, size = 0x1000}` maps the
pointer `0x500` below the base and the one-past-top pointer `0x2000` to
`0x1000`. -/
theorem clamp_out_of_range_witness :
    sp_corrector Platform.linux (linuxHost 0x1000 0x1000) debugBuild 0x500 7
        = Outcome.returned 0x1000
      ∧ sp_corrector Platform.linux (linuxHost 0x1000 0x1000) debugBuild 0x2000 7
        = Outcome.returned 0x1000 :=
  ⟨clamp_out_of_range Platform.linux (linuxHost 0x1000 0x1000) debugBuild 7 0x1000 0x1000 0x500
      (by decide) (by decide) (by decide),
    clamp_out_of_range Platform.linux (linuxHost 0x1000 0x1000) debugBuild 7 0x1000 0x1000 0x2000
      (by decide) (by decide) (by decide)⟩

/-- C3: on every platform branch and for every reported `(stack_addr,
stack_size)`, a candidate pointer equal to `stack_addr` leaves `*sp_ptr` equal
to `stack_addr` when `sp_corrector` returns. -/
theorem lower_boundary_kept (plat : Platform) (h : Host) (b : Build) (tid : Nat) :
    sp_corrector plat h b (query plat h tid).1 tid
      = Outcome.returned (query plat h tid).1 := by
  unfold sp_corrector
  exact check_base _ _ _ _

/-- C4: for every reported region `(base, size)` with non-null base,
`size > 0` and `base + size` not overflowing the pointer width, and every
candidate pointer `p`, `sp_corrector` returns and the value `q` left in
`*sp_ptr` satisfies `base ≤ q < base + size`. -/
theorem result_in_region (plat : Platform) (h : Host) (b : Build) (tid base size p : Nat)
    (hq : query plat h tid = (base, size)) (h0 : base ≠ 0) (hs : 0 < size)
    (hw : base + size < 2 ^ h.bits) :
    ∃ q, sp_corrector plat h b p tid = Outcome.returned q ∧ base ≤ q ∧ q < base + size := by
  rw [sp_corrector_nonnull plat h b p tid base size hq h0, addw_of_lt _ _ _ hw]
  by_cases hc : base < p ∧ p < base + size
  · exact ⟨p, by rw [if_pos hc], by omega, by omega⟩
  · exact ⟨base, by rw [if_neg hc], by omega, by omega⟩

/-- Witness of C4: region `{base = 0x1000, size = 0x1000}` and the
out-of-range pointer `0x500`. -/
theorem result_in_region_witness :
    ∃ q, sp_corrector Platform.linux (linuxHost 0x1000 0x1000) debugBuild 0x500 7
        = Outcome.returned q ∧ 0x1000 ≤ q ∧ q < 0x1000 + 0x1000 :=
  result_in_region Platform.linux (linuxHost 0x1000 0x1000) debugBuild 7 0x1000 0x1000 0x500
    (by decide) (by decide) (by decide) (by decide)

/-- C5, as stated, fails: in a build with `NDEBUG`, a run in which the query
fails (`pthread_getattr_np` returns `22`, no base address) and a run in which it
succeeds with region `{base = 0x1000, size = 0x1000}` leave the caller with the
same outcome, a normal return with `*sp_ptr = 0x1800`; nothing the caller can
observe reports the failure. -/
theorem failure_not_reported :
    (query Platform.linux (linuxFailHost 22) 7).1 = 0
      ∧ query Platform.linux (linuxHost 0x1000 0x1000) 7 = (0x1000, 0x1000)
      ∧ sp_corrector Platform.linux (linuxFailHost 22) releaseBuild 0x1800 7
          = Outcome.returned 0x1800
      ∧ sp_corrector Platform.linux (linuxFailHost 22) releaseBuild 0x1800 7
          = sp_corrector Platform.linux (linuxHost 0x1000 0x1000) releaseBuild 0x1800 7 := by
  decide

/-- C5, amended: in a build with `NDEBUG`, whenever the query leaves no base
address, `sp_corrector` returns normally with `*sp_ptr` unchanged, and this
outcome is the one a successful query produces for any pointer strictly inside
its region: the `void` function gives its caller no failure indication. -/
theorem failure_returns_silently (plat : Platform) (hF hS : Host) (b : Build) (tid p : Nat)
    (hnd : b.ndebug = true)
    (hfail : (query plat hF tid).1 = 0)
    (hok : (query plat hS tid).1 ≠ 0)
    (hin : (query plat hS tid).1 < p ∧
      p < addw hS.bits (query plat hS tid).1 (query plat hS tid).2) :
    sp_corrector plat hF b p tid = Outcome.returned p
      ∧ sp_corrector plat hS b p tid = sp_corrector plat hF b p tid := by
  have e1 : sp_corrector plat hF b p tid = Outcome.returned p := by
    unfold sp_corrector
    simp only []
    rw [hfail]
    simp [check, assert, hnd]
  refine ⟨e1, ?_⟩
  rw [e1, sp_corrector_eq plat hS b p tid hok, if_pos hin]

/-- Witness of C5 (amended): the failing Linux query against the region
`{base = 0x1000, size = 0x1000}`, pointer `0x1800`. -/
theorem failure_returns_silently_witness :
    sp_corrector Platform.linux (linuxFailHost 22) releaseBuild 0x1800 7
        = Outcome.returned 0x1800
      ∧ sp_corrector Platform.linux (linuxHost 0x1000 0x1000) releaseBuild 0x1800 7
        = sp_corrector Platform.linux (linuxFailHost 22) releaseBuild 0x1800 7 :=
  failure_returns_silently Platform.linux (linuxFailHost 22) (linuxHost 0x1000 0x1000)
    releaseBuild 7 0x1800 rfl (by decide) (by decide) (by decide)

/-- C7: on every platform branch, in every build and for every candidate
pointer `p`, if `stack_addr` is `NULL` when control reaches line 46 (on Linux:
`pthread_getattr_np` returns non-zero, or it succeeds but
`pthread_attr_getstack` returns non-zero) then `sp_corrector` returns with
`*sp_ptr` still equal to `p`, whatever `stack_size` holds. -/
theorem silent_return_keeps_pointer (plat : Platform) (h : Host) (b : Build) (tid p : Nat)
    (hnull : (query plat h tid).1 = 0 ∨
      (plat = Platform.linux ∧
        (h.pthread_getattr_np tid ≠ 0 ∨
          (h.pthread_getattr_np tid = 0 ∧ (h.pthread_attr_getstack tid).1 ≠ 0)))) :
    sp_corrector plat h b p tid = Outcome.returned p := by
  rcases hnull with h0 | ⟨hp, herr⟩
  · exact sp_corrector_null plat h b p tid h0
  · subst hp
    exact sp_corrector_null Platform.linux h b p tid (query_linux_error h tid herr)

/-- Witness of C7: on Linux `pthread_getattr_np` succeeds, `pthread_attr_getstack`
returns `22` having written `0x7000` and `0x2000` to its out-parameters; the
pointer `0x500` is left as it is. -/
theorem silent_return_keeps_pointer_witness :
    sp_corrector Platform.linux
        { bits := 64
          pthread_get_stacksize_np := fun _ => 0
          pthread_get_stackaddr_np := fun _ => 0
          GetCurrentThreadStackLimits := (0, 0)
          pthread_getattr_np := fun _ => 0
          pthread_attr_getstack := fun _ => (22, 0x7000, 0x2000) }
        debugBuild 0x500 7 = Outcome.returned 0x500 :=
  silent_return_keeps_pointer Platform.linux _ debugBuild 7 0x500
    (Or.inr ⟨rfl, Or.inr ⟨by decide, by decide⟩⟩)

/-- C8: on every platform branch, for every host answer (a failed query
included) and every candidate pointer `p`, `sp_corrector` returns with some
value `q` in `*sp_ptr`, and running it again on `q` with the same host answer
returns with `q` unchanged. -/
theorem sp_corrector_idempotent (plat : Platform) (h : Host) (b : Build) (tid p : Nat) :
    ∃ q, sp_corrector plat h b p tid = Outcome.returned q
      ∧ sp_corrector plat h b q tid = Outcome.returned q := by
  by_cases h0 : (query plat h tid).1 = 0
  · exact ⟨p, sp_corrector_null plat h b p tid h0, sp_corrector_null plat h b p tid h0⟩
  · have e := fun sp => sp_corrector_eq plat h b sp tid h0
    by_cases hc : (query plat h tid).1 < p ∧
        p < addw h.bits (query plat h tid).1 (query plat h tid).2
    · refine ⟨p, ?_, ?_⟩ <;> rw [e, if_pos hc]
    · refine ⟨(query plat h tid).1, ?_, ?_⟩
      · rw [e, if_neg hc]
      · rw [e, if_neg (by omega)]

/-- C9: in the Windows branch, with `GetCurrentThreadStackLimits` reporting
`(stack_low, stack_high)` (values of the pointer width) and `stack_low`
non-zero, the upper bound `stack_low + (stack_high - stack_low)` computed with
wrap-around equals `stack_high`, `sp_corrector` keeps `*sp_ptr` exactly when
`stack_low < sp < stack_high` and otherwise sets it to `stack_low`, and the
outcome is the same for every value of `tid`. -/
theorem windows_branch (h : Host) (b : Build) (sp tid : Nat)
    (h0 : h.GetCurrentThreadStackLimits.1 ≠ 0)
    (hl : h.GetCurrentThreadStackLimits.1 < 2 ^ h.bits)
    (hh : h.GetCurrentThreadStackLimits.2 < 2 ^ h.bits) :
    addw h.bits h.GetCurrentThreadStackLimits.1
        (subw h.bits h.GetCurrentThreadStackLimits.2 h.GetCurrentThreadStackLimits.1)
        = h.GetCurrentThreadStackLimits.2
      ∧ sp_corrector Platform.win64 h b sp tid
        = Outcome.returned
            (if h.GetCurrentThreadStackLimits.1 < sp ∧ sp < h.GetCurrentThreadStackLimits.2
              then sp else h.GetCurrentThreadStackLimits.1)
      ∧ ∀ tid2 : Nat,
          sp_corrector Platform.win64 h b sp tid2 = sp_corrector Platform.win64 h b sp tid := by
  have e := addw_subw h.bits _ _ hl hh
  refine ⟨e, ?_, fun tid2 => rfl⟩
  have hq : query Platform.win64 h tid = (h.GetCurrentThreadStackLimits.1,
      subw h.bits h.GetCurrentThreadStackLimits.2 h.GetCurrentThreadStackLimits.1) := rfl
  rw [sp_corrector_nonnull Platform.win64 h b sp tid _ _ hq h0, e]

/-- Witness of C9: limits `(0x1000, 0x2000)` on a 64-bit host, pointer
`0x2000` (equal to `stack_high`), thread argument `7`. -/
theorem windows_branch_witness :
    addw 64 0x1000 (subw 64 0x2000 0x1000) = 0x2000
      ∧ sp_corrector Platform.win64 (winHost 0x1000 0x2000) debugBuild 0x2000 7
        = Outcome.returned (if 0x1000 < 0x2000 ∧ 0x2000 < 0x2000 then 0x2000 else 0x1000)
      ∧ ∀ tid2 : Nat,
          sp_corrector Platform.win64 (winHost 0x1000 0x2000) debugBuild 0x2000 tid2
            = sp_corrector Platform.win64 (winHost 0x1000 0x2000) debugBuild 0x2000 7 :=
  windows_branch (winHost 0x1000 0x2000) debugBuild 0x2000 7
    (by decide) (by decide) (by decide)

/-- C10: the assertion on line 47 tests the address of a string literal, which
is not null, so it never fails; on every input for which `stack_addr` is `NULL`
at line 46, `sp_corrector` does not abort and its outcome in one build (for
instance with assertions enabled) is its outcome in any other (for instance
with `NDEBUG`). -/
theorem assertion_never_fails (plat : Platform) (h : Host) (b1 b2 : Build) (tid p : Nat)
    (hnull : (query plat h tid).1 = 0) :
    assert b1.ndebug b1.msg = true
      ∧ sp_corrector plat h b1 p tid ≠ Outcome.aborted
      ∧ sp_corrector plat h b1 p tid = sp_corrector plat h b2 p tid := by
  refine ⟨assert_msg b1, ?_, ?_⟩
  · rw [sp_corrector_null plat h b1 p tid hnull]
    exact fun hc => Outcome.noConfusion hc
  · rw [sp_corrector_null plat h b1 p tid hnull, sp_corrector_null plat h b2 p tid hnull]

/-- Witness of C10: the failing Linux query, a build with assertions enabled
against a build with `NDEBUG`. -/
theorem assertion_never_fails_witness :
    assert debugBuild.ndebug debugBuild.msg = true
      ∧ sp_corrector Platform.linux (linuxFailHost 22) debugBuild 0x1800 7 ≠ Outcome.aborted
      ∧ sp_corrector Platform.linux (linuxFailHost 22) debugBuild 0x1800 7
        = sp_corrector Platform.linux (linuxFailHost 22) releaseBuild 0x1800 7 :=
  assertion_never_fails Platform.linux (linuxFailHost 22) debugBuild releaseBuild 7 0x1800
    (by decide)

/-! ## The scanner loop -/

theorem RootSet.mem_insert (s : RootSet) (v x : Nat) :
    x ∈ (s.insert v).roots ↔ x ∈ s.roots ∨ x = v := by
  unfold RootSet.insert
  by_cases hv : v ∈ s.roots
  · rw [if_pos hv]
    constructor
    · exact Or.inl
    · rintro (hx | rfl)
      · exact hx
      · exact hv
  · rw [if_neg hv]
    simp

theorem alignUp_dvd (W a : Nat) : W ∣ alignUp W a :=
  Nat.dvd_mul_left _ _

theorem le_alignUp (W a : Nat) (hW : 0 < W) : a ≤ alignUp W a := by
  unfold alignUp
  have h1 := Nat.div_add_mod (a + (W - 1)) W
  have h2 := Nat.mod_lt (a + (W - 1)) hW
  rw [Nat.mul_comm]
  omega

theorem alignUp_le_of_dvd (W a b : Nat) (hW : 0 < W) (hd : W ∣ b) (hab : a ≤ b) :
    alignUp W a ≤ b := by
  obtain ⟨m, rfl⟩ := hd
  unfold alignUp
  rw [Nat.mul_comm W m]
  apply Nat.mul_le_mul_right
  apply Nat.le_of_lt_succ
  rw [Nat.div_lt_iff_lt_mul hW, Nat.succ_mul]
  rw [Nat.mul_comm W m] at hab
  omega

theorem scanLoop_mem (W : Nat) (mem : Nat → Nat) (H : AddressRange) (top : Nat) (hW : 0 < W) :
    ∀ (fuel cursor : Nat) (sink : RootSet), top + 1 - cursor ≤ fuel →
      ∀ v, v ∈ (scanLoop W mem H top fuel cursor sink).roots ↔
        v ∈ sink.roots ∨
          ∃ k, cursor + k * W ≤ top ∧ mem (cursor + k * W) = v ∧ H.contains v = true := by
  intro fuel
  induction fuel with
  | zero =>
    intro cursor sink hf v
    simp only [scanLoop]
    constructor
    · exact Or.inl
    · rintro (hv | ⟨k, hk, _⟩)
      · exact hv
      · omega
  | succ fuel ih =>
    intro cursor sink hf v
    simp only [scanLoop]
    by_cases hc : cursor ≤ top
    · rw [if_pos hc, ih (cursor + W) _ (by omega) v]
      constructor
      · rintro (hv | ⟨k, hk, hm, hH⟩)
        · by_cases hin : H.contains (mem cursor) = true
          · rw [if_pos hin, RootSet.mem_insert] at hv
            rcases hv with hv | rfl
            · exact Or.inl hv
            · exact Or.inr ⟨0, by simpa using hc, by simp, hin⟩
          · rw [if_neg hin] at hv
            exact Or.inl hv
        · refine Or.inr ⟨k + 1, ?_, ?_, hH⟩
          · rw [Nat.succ_mul]; omega
          · rw [Nat.succ_mul, Nat.add_comm (k * W) W, ← Nat.add_assoc]; exact hm
      · rintro (hv | ⟨k, hk, hm, hH⟩)
        · left
          by_cases hin : H.contains (mem cursor) = true
          · rw [if_pos hin, RootSet.mem_insert]; exact Or.inl hv
          · rw [if_neg hin]; exact hv
        · cases k with
          | zero =>
            left
            simp only [Nat.zero_mul, Nat.add_zero] at hm
            rw [hm, if_pos hH, RootSet.mem_insert]
            exact Or.inr rfl
          | succ k =>
            right
            refine ⟨k, ?_, ?_, hH⟩
            · rw [Nat.succ_mul] at hk; omega
            · rw [Nat.succ_mul, Nat.add_comm (k * W) W, ← Nat.add_assoc] at hm; exact hm
    · rw [if_neg hc]
      constructor
      · exact Or.inl
      · rintro (hv | ⟨k, hk, _⟩)
        · exact hv
        · omega

/-- C6 (against the scanner as the specification describes it): for a
pointer width `W > 0`, every range with `start ≤ top`, every heap range `H` and
every sink, `scan` succeeds; the resulting RootSet holds the value of every
`W`-aligned word at an address in `[start, top]` whose value lies in `H`, every
value it holds that was not in the sink before is the value of such a word and
lies in `H`, and nothing is removed from the sink. -/
theorem scan_complete_exact (W : Nat) (mem : Nat → Nat) (start top : Nat)
    (H : AddressRange) (sink : RootSet) (hW : 0 < W) (hst : start ≤ top) :
    ∃ out, scan W mem start top H sink = Except.ok out
      ∧ (∀ a, start ≤ a → a ≤ top → W ∣ a → H.contains (mem a) = true → mem a ∈ out.roots)
      ∧ (∀ v, v ∈ out.roots → v ∉ sink.roots →
          H.contains v = true ∧ ∃ a, start ≤ a ∧ a ≤ top ∧ W ∣ a ∧ mem a = v)
      ∧ (∀ v, v ∈ sink.roots → v ∈ out.roots) := by
  have hle := le_alignUp W start hW
  have hmem := scanLoop_mem W mem H top hW (top - start + 1) (alignUp W start) sink (by omega)
  refine ⟨scanLoop W mem H top (top - start + 1) (alignUp W start) sink, ?_, ?_, ?_, ?_⟩
  · unfold scan
    rw [if_neg (by omega)]
  · intro a ha hat hd hin
    rw [hmem]
    right
    have hlow := alignUp_le_of_dvd W start a hW hd ha
    obtain ⟨k, hk⟩ := Nat.dvd_sub' hd (alignUp_dvd W start)
    have e : alignUp W start + k * W = a := by
      rw [Nat.mul_comm k W, ← hk]; omega
    exact ⟨k, by omega, by rw [e], hin⟩
  · intro v hv hnot
    rw [hmem] at hv
    rcases hv with hv | ⟨k, hk, hm, hH⟩
    · exact absurd hv hnot
    · refine ⟨hH, alignUp W start + k * W, by omega, hk, ?_, hm⟩
      exact Nat.dvd_add (alignUp_dvd W start) (Nat.dvd_mul_left _ _)
  · intro v hv
    rw [hmem]
    exact Or.inl hv

/-- Witness of C6: the scenario of section 8, scanning `[0x1000, 0x1020]` with
heap range `[0x9000, 0xA000]` at pointer width 8 into an empty sink, yields
exactly the root `0x9500`. -/
theorem scan_complete_exact_witness :
    scan 8 scenarioMem 0x1000 0x1020 ⟨0x9000, 0xA000⟩ ⟨[]⟩ = Except.ok ⟨[0x9500]⟩
      ∧ ∃ out, scan 8 scenarioMem 0x1000 0x1020 ⟨0x9000, 0xA000⟩ ⟨[]⟩ = Except.ok out
        ∧ (∀ a, 0x1000 ≤ a → a ≤ 0x1020 → 8 ∣ a →
            AddressRange.contains ⟨0x9000, 0xA000⟩ (scenarioMem a) = true →
            scenarioMem a ∈ out.roots)
        ∧ (∀ v, v ∈ out.roots → v ∉ (⟨[]⟩ : RootSet).roots →
            AddressRange.contains ⟨0x9000, 0xA000⟩ v = true
              ∧ ∃ a, 0x1000 ≤ a ∧ a ≤ 0x1020 ∧ 8 ∣ a ∧ scenarioMem a = v)
        ∧ (∀ v, v ∈ (⟨[]⟩ : RootSet).roots → v ∈ out.roots) :=
  ⟨rfl, scan_complete_exact 8 scenarioMem 0x1000 0x1020 ⟨0x9000, 0xA000⟩ ⟨[]⟩
    (by decide) (by decide)⟩

end SpCorrector
